import Mathlib

/-!
Shallow embedding of dropper.py, a small Flask file-sharing server.

The embedding models the pure core of each request handler:

* path confinement (safe_resolve, built on pathlib joining, resolution and
  the relative_to ancestry check) over paths represented as component lists;
  resolution is textual normalization of a symlink-free tree, matching
  pathlib resolve on trees without symlinks;
* the filesystem as an inductive tree of directories and files (file content
  as a byte list, modification times carried as preformatted strings, since
  strftime formatting is host-library territory no claim touches);
* the Basic-auth gate (check_auth_header, requires_auth) including models of
  str.split with a None separator, the CPython non-validating base64 decoder
  that discards foreign characters, and a strict UTF-8 decoder;
* the directory lister, the recursive index walk, the search filter, the
  short-name table construction, and the route layer with its gate wiring;
* the startup credential check.

Numbers that CPython handles as floats (human_size) are modeled as exact
rationals; division by 1024 is exact in binary floating point for the sizes
below 2 to the 53, so the models agree on the ranges the claims exercise,
and formatting uses round-half-to-even exactly as the CPython float repr
machinery does on those exact values.
-/

namespace Dropper

/-! ### Path resolver (dropper.py lines 132-142 and pathlib semantics) -/

/-- Split a character list at every slash, keeping empty pieces, the
semantics of str.split with a slash separator. -/
def splitSlash : List Char → List Char → List String
  | cur, [] => [String.mk cur.reverse]
  | cur, c :: rest =>
    if c = '/' then String.mk cur.reverse :: splitSlash [] rest
    else splitSlash (c :: cur) rest

/-- Parse a user-supplied path string the way PurePosixPath does: record
whether it is absolute and keep the components, dropping empty components
and single dots (pathlib removes both at construction). Double dots are
kept, as pathlib keeps them for resolve to process. -/
def parseRel (s : String) : Bool × List String :=
  (match s.data with
   | '/' :: _ => true
   | _ => false,
   (splitSlash [] s.data).filter (fun c => c != "" && c != "."))

/-- Normalization pass of Path.resolve on a symlink-free tree: process
components left to right, a double dot removes the last accumulated
component (and is a no-op at the filesystem root). -/
def resolveComps : List String → List String → List String
  | acc, [] => acc
  | acc, c :: rest =>
    if c = ".." then resolveComps acc.dropLast rest
    else resolveComps (acc ++ [c]) rest

/-- Joining ROOT with the user string, as ROOT / rel_path does: an absolute
right operand discards ROOT entirely. The root is an already-resolved
absolute path given by its components below the filesystem root. -/
def joinPath (root : List String) (rel : String) : List String :=
  let p := parseRel rel
  if p.1 then p.2 else root ++ p.2

/-- Model of (ROOT / rel_path).resolve(). -/
def resolveTarget (root : List String) (rel : String) : List String :=
  resolveComps [] (joinPath root rel)

/-- Component-wise ancestry test: pathlib relative_to succeeds exactly when
the parts of ROOT are an initial segment of the parts of the target. This
is a test on component lists, not on strings, so a sibling directory whose
name merely begins with the name of ROOT is not an ancestor match. -/
def startsWithComps : List String → List String → Bool
  | [], _ => true
  | _ :: _, [] => false
  | a :: as, b :: bs => a == b && startsWithComps as bs

/-- Model of safe_resolve: join, resolve, then require the result to be ROOT
or a descendant of ROOT via relative_to; on failure the handler aborts with
404, modeled as none. -/
def safe_resolve (root : List String) (rel : String) : Option (List String) :=
  let target := resolveTarget root rel
  if startsWithComps root target then some target else none

/-! ### Filesystem model -/

/-- A filesystem node: a regular file with content bytes and a preformatted
modification-time string, or a directory with its own time string and named
children in on-disk (scandir) order. Special files are outside the model,
matching the listers which classify only via is_dir and is_file. -/
inductive FsNode where
  | file (content : List Nat) (mtime : String)
  | dir (mtime : String) (children : List (String × FsNode))

/-- First child with the given name, if any. -/
def childNamed (cs : List (String × FsNode)) (nm : String) : Option FsNode :=
  (cs.find? (fun c => c.1 == nm)).map (·.2)

/-- Walk a component path down a node. -/
def lookupNode : List String → FsNode → Option FsNode
  | [], n => some n
  | _ :: _, FsNode.file _ _ => none
  | c :: rest, FsNode.dir _ cs =>
    match childNamed cs c with
    | some n => lookupNode rest n
    | none => none

def isDirNode : FsNode → Bool
  | FsNode.dir _ _ => true
  | _ => false

def isFileNode : FsNode → Bool
  | FsNode.file _ _ => true
  | _ => false

/-! ### Human-readable sizes (dropper.py lines 125-130) -/

/-- Format a nonnegative rational with one decimal place, rounding half to
even, as the format specifier 3.1f does on the exact values arising here
(the minimum width of 3 never pads, since a nonnegative result always has
at least one integer digit, the point, and one decimal digit). -/
def fmt1 (q : ℚ) : String :=
  let t : ℚ := q * 10
  let n : ℤ := ⌊t⌋
  let r : ℚ := t - n
  let m : ℤ := if 1/2 < r then n + 1 else if r < 1/2 then n else if n % 2 = 0 then n else n + 1
  toString (m.toNat / 10) ++ "." ++ toString (m.toNat % 10)

/-- The unit loop of human_size: try B through TB, dividing by 1024 after
each failed bound check, and fall back to PB when every unit is exhausted. -/
def humanLoop : ℚ → List String → String
  | q, [] => fmt1 q ++ "PB"
  | q, u :: us => if q < 1024 then fmt1 q ++ u else humanLoop (q / 1024) us

/-- Model of human_size. -/
def human_size (q : ℚ) : String :=
  humanLoop q ["B", "KB", "MB", "GB", "TB"]

/-! ### Posix-style path strings (pathlib as_posix on relative paths) -/

def joinComps (cs : List String) : String := String.intercalate "/" cs

/-- Rebuild the string form of a parsed path, as as_posix does: an empty
relative component list prints as a single dot. -/
def mkPosix (isAbs : Bool) (cs : List String) : String :=
  if cs = [] then (if isAbs then "/" else ".")
  else (if isAbs then "/" else "") ++ joinComps cs

/-- Model of str(pathlib.Path(rel).as_posix()). -/
def posixStr (rel : String) : String :=
  mkPosix (parseRel rel).1 (parseRel rel).2

/-- Model of (pathlib.Path(rel) / nm).as_posix(): an absolute right operand
wins, otherwise the component lists concatenate. -/
def posixJoin (rel nm : String) : String :=
  let p := parseRel rel
  let p2 := parseRel nm
  if p2.1 then mkPosix true p2.2 else mkPosix p.1 (p.2 ++ p2.2)

/-! ### Directory lister (dropper.py lines 144-165) -/

/-- Ordering used by sorted(p.iterdir()): paths sharing a parent compare by
the child name string. -/
def childLe (a b : String × FsNode) : Prop := a.1 ≤ b.1

instance : DecidableRel childLe := fun a b => inferInstanceAs (Decidable (a.1 ≤ b.1))

instance : IsTotal (String × FsNode) childLe := ⟨fun a b => le_total a.1 b.1⟩

instance : IsTrans (String × FsNode) childLe := ⟨fun _ _ _ h1 h2 => le_trans h1 h2⟩

def sortChildren (cs : List (String × FsNode)) : List (String × FsNode) :=
  List.insertionSort childLe cs

structure DirEntry where
  name : String
  relpath : String
  mtime : String
deriving DecidableEq

structure FileEntry where
  name : String
  relpath : String
  size : String
  mtime : String
deriving DecidableEq

structure LsResult where
  dirs : List DirEntry
  files : List FileEntry
  cwd : String
deriving DecidableEq

/-- Directory-entry record built for a directory child; none for a file. -/
def dirEntryOf (rel : String) : String × FsNode → Option DirEntry
  | (nm, FsNode.dir mt _) => some ⟨nm, posixJoin rel nm, mt⟩
  | _ => none

/-- File-entry record built for a file child; none for a directory. -/
def fileEntryOf (rel : String) : String × FsNode → Option FileEntry
  | (nm, FsNode.file content mt) =>
    some ⟨nm, posixJoin rel nm, human_size (content.length : ℚ), mt⟩
  | _ => none

/-- Model of list_dir: resolve and confine the path, require a directory,
then emit the sorted immediate children split into directories and files. -/
def list_dir (root : List String) (fs : FsNode) (rel : String) : Option LsResult :=
  match safe_resolve root rel with
  | none => none
  | some t =>
    match lookupNode (t.drop root.length) fs with
    | some (FsNode.dir _ cs) =>
      let s := sortChildren cs
      some ⟨s.filterMap (dirEntryOf rel), s.filterMap (fileEntryOf rel), posixStr rel⟩
    | _ => none

/-! ### Recursive indexer and search (dropper.py lines 167-180, 389-400) -/

structure Entry where
  name : String
  relpath : String
  size : String
  mtime : String
deriving DecidableEq

/-- Relative path recorded for a file found under walk directory rr, per
build_index and the SHORT_URLS loop: the bare name at the top level (where
rel_root is a single dot), otherwise the posix join. -/
def mkRel (rr f : String) : String :=
  if rr != "." then posixJoin rr f else f

/-- Relative name os.walk hands to the next level: the walk root itself is
the single dot, and deeper directories join with a slash. -/
def childRelDir (rr nm : String) : String :=
  if rr = "." then nm else rr ++ "/" ++ nm

mutual
/-- Model of the os.walk traversal inside build_index: for each directory,
emit the entries of its regular files in child order, then recurse into its
subdirectories in child order. -/
def walkIndex (rr : String) : FsNode → List Entry
  | FsNode.file _ _ => []
  | FsNode.dir _ cs =>
    (cs.filterMap (fun c =>
      match c with
      | (nm, FsNode.file content mt) =>
        some ⟨nm, mkRel rr nm, human_size (content.length : ℚ), mt⟩
      | _ => none)) ++ walkChildren rr cs
def walkChildren (rr : String) : List (String × FsNode) → List Entry
  | [] => []
  | (nm, n) :: rest =>
    (if isDirNode n then walkIndex (childRelDir rr nm) n else []) ++ walkChildren rr rest
end

/-- Model of build_index. -/
def build_index (fs : FsNode) : List Entry := walkIndex "." fs

/-- Python str.strip with no argument: drop whitespace from both ends. -/
def pyStrip (s : String) : String :=
  String.mk (((s.data.dropWhile Char.isWhitespace).reverse.dropWhile Char.isWhitespace).reverse)

def toLowerStr (s : String) : String := String.mk (s.data.map Char.toLower)

/-- Bare prefix test on character lists. -/
def beginsWith : List Char → List Char → Bool
  | [], _ => true
  | _ :: _, [] => false
  | c :: cs, d :: ds => c == d && beginsWith cs ds

/-- Contiguous substring test on character lists, the semantics of the
Python in operator on strings (an empty needle always matches). -/
def occursIn (nd : List Char) : List Char → Bool
  | [] => beginsWith nd []
  | c :: t => beginsWith nd (c :: t) || occursIn nd t

def strOccursIn (nd hay : String) : Bool := occursIn nd.data hay.data

/-- Model of the api_search handler body over a prebuilt index: strip and
lower the query, return the empty list for a blank query, else filter the
index by case-insensitive substring match on name or relpath. -/
def api_search (idx : List Entry) (q : String) : List Entry :=
  let ql := toLowerStr (pyStrip q)
  if ql = "" then []
  else idx.filter (fun e => strOccursIn ql (toLowerStr e.name) || strOccursIn ql (toLowerStr e.relpath))

/-- Search behavior in the words of the spec sentence settled here: return
exactly the index entries whose lower-cased name or relative path contains
the lower-cased query as a substring, and the empty list for the empty
query. Written from the spec text, to compare with api_search. -/
def searchByClaim (idx : List Entry) (q : String) : List Entry :=
  if q = "" then []
  else idx.filter (fun e =>
    strOccursIn (toLowerStr q) (toLowerStr e.name) || strOccursIn (toLowerStr q) (toLowerStr e.relpath))

/-! ### Short-name table (dropper.py lines 422-436) -/

/-- Model of os.path.splitext on a bare filename: split at the last dot,
except that a name whose every character before that dot is itself a dot
(such as a dotfile) does not split. -/
def splitext (f : String) : String × String :=
  let cs := f.data
  match cs.reverse.findIdx? (· == '.') with
  | none => (f, "")
  | some rIdx =>
    let dotIdx := cs.length - 1 - rIdx
    if (cs.take dotIdx).any (· != '.') then
      (String.mk (cs.take dotIdx), String.mk (cs.drop dotIdx))
    else (f, "")

/-- Candidate short name with a numeric suffix inserted before the
extension. -/
def candName (b e : String) (i : Nat) : String := b ++ "_" ++ toString i ++ e

def hasKey (t : List (String × String)) (k : String) : Bool := t.any (·.1 == k)

/-- Python dict assignment: replace the value in place when the key exists,
otherwise append the new binding. -/
def dictInsert : List (String × String) → String → String → List (String × String)
  | [], k, v => [(k, v)]
  | (k0, v0) :: t, k, v =>
    if k0 = k then (k0, v) :: t else (k0, v0) :: dictInsert t k v

/-- The while loop of the collision branch: starting at suffix index i, walk
upward until the candidate is unused. A fuel argument bounds the recursion;
the callers pass one more than the table size, enough for the loop as the
candidates are pairwise distinct strings. -/
def freeSearch (t : List (String × String)) (b e : String) : Nat → Nat → String
  | i, 0 => candName b e i
  | i, fuel + 1 =>
    if hasKey t (candName b e i) then freeSearch t b e (i + 1) fuel
    else candName b e i

/-- Short name chosen for file f against the table so far: the bare name
when unused, otherwise the first free suffixed candidate from index 1. -/
def chooseShort (t : List (String × String)) (f : String) : String :=
  if hasKey t f then
    freeSearch t (splitext f).1 (splitext f).2 1 (t.length + 1)
  else f

/-- One iteration of the SHORT_URLS loop body for file f found under walk
directory rr. -/
def insertFile (t : List (String × String)) (rr f : String) : List (String × String) :=
  dictInsert t (chooseShort t f) (mkRel rr f)

/-- Model of the SHORT_URLS construction over the flattened walk output: a
list of walk directories, each with its file names in scandir order. -/
def buildShortUrls (walk : List (String × List String)) : List (String × String) :=
  walk.foldl (fun t p => p.2.foldl (fun t2 f => insertFile t2 p.1 f) t) []

/-- Dict lookup over the association-list model. -/
def lookupS (t : List (String × String)) (k : String) : Option String :=
  (t.find? (·.1 == k)).map (·.2)

mutual
/-- Walk output feeding the SHORT_URLS loop, mirroring walkIndex: each
directory paired with the names of its regular files, in traversal order. -/
def walkPairs (rr : String) : FsNode → List (String × List String)
  | FsNode.file _ _ => []
  | FsNode.dir _ cs =>
    (rr, (cs.filterMap (fun c => if isFileNode c.2 then some c.1 else none))) :: walkPairsChildren rr cs
def walkPairsChildren (rr : String) : List (String × FsNode) → List (String × List String)
  | [] => []
  | (nm, n) :: rest =>
    (if isDirNode n then walkPairs (childRelDir rr nm) n else []) ++ walkPairsChildren rr rest
end

/-- The SHORT_URLS table computed at startup from the filesystem. -/
def shortUrlsOf (fs : FsNode) : List (String × String) :=
  buildShortUrls (walkPairs "." fs)

/-! ### Authentication gate (dropper.py lines 77-115) -/

/-- Python str.split(None, 1): skip leading whitespace, take the first
whitespace-free token, skip the separating whitespace, and keep the rest
verbatim; fewer than two pieces make the two-name unpacking in the source
raise, modeled as none. -/
def splitWs1 (s : String) : Option (String × String) :=
  let cs := s.data.dropWhile Char.isWhitespace
  let tok := cs.takeWhile (fun c => !c.isWhitespace)
  let rest := (cs.dropWhile (fun c => !c.isWhitespace)).dropWhile Char.isWhitespace
  match tok, rest with
  | [], _ => none
  | _, [] => none
  | t, r => some (String.mk t, String.mk r)

/-- Value of a character in the standard base64 alphabet. -/
def b64val (c : Char) : Option Nat :=
  if 'A' ≤ c ∧ c ≤ 'Z' then some (c.toNat - 65)
  else if 'a' ≤ c ∧ c ≤ 'z' then some (c.toNat - 97 + 26)
  else if '0' ≤ c ∧ c ≤ '9' then some (c.toNat - 48 + 52)
  else if c = '+' then some 62
  else if c = '/' then some 63
  else none

/-- Bytes of a full group of four sextets. -/
def quadBytes4 (v0 v1 v2 v3 : Nat) : List Nat :=
  [v0 * 4 + v1 / 16, (v1 % 16) * 16 + v2 / 4, (v2 % 4) * 64 + v3]

/-- Bytes of a final padded group of two or three sextets; called only with
groups of that size, other shapes yield no bytes. -/
def finishQuad : List Nat → List Nat
  | [v0, v1] => [v0 * 4 + v1 / 16]
  | [v0, v1, v2] => [v0 * 4 + v1 / 16, (v1 % 16) * 16 + v2 / 4]
  | _ => []

/-- Model of binascii.a2b_base64 in its default non-strict mode, the engine
of base64.b64decode: characters outside the alphabet are discarded, a pad
character completes a group of two or three sextets (one pad suffices after
three, two pads after two) and ends decoding, a data character resets the
pad count, and leftover sextets at the end of input are an error. -/
def b64decodeAux : List Char → List Nat → Nat → Option (List Nat)
  | [], quad, _ => if quad.isEmpty then some [] else none
  | c :: rest, quad, pads =>
    if c = '=' then
      if 2 ≤ quad.length then
        if 4 ≤ quad.length + (pads + 1) then some (finishQuad quad)
        else b64decodeAux rest quad (pads + 1)
      else b64decodeAux rest quad pads
    else
      match b64val c with
      | none => b64decodeAux rest quad pads
      | some v =>
        match quad ++ [v] with
        | [v0, v1, v2, v3] => (b64decodeAux rest [] 0).map (fun bs => quadBytes4 v0 v1 v2 v3 ++ bs)
        | q => b64decodeAux rest q 0

/-- Model of base64.b64decode on a string. -/
def b64decodeStr (s : String) : Option (List Nat) :=
  b64decodeAux s.data [] 0

def isCont (b : Nat) : Bool := 128 ≤ b && b ≤ 191

/-- Strict UTF-8 decoding of a byte list, as bytes.decode("utf-8"):
overlong forms, surrogates, out-of-range values, stray continuation bytes
and truncated sequences all fail. -/
def utf8Decode : List Nat → Option (List Char)
  | [] => some []
  | b :: rest =>
    if b ≤ 127 then (utf8Decode rest).map (fun cs => Char.ofNat b :: cs)
    else if 194 ≤ b && b ≤ 223 then
      match rest with
      | c1 :: rest2 =>
        if isCont c1 then
          (utf8Decode rest2).map (fun cs => Char.ofNat ((b - 192) * 64 + (c1 - 128)) :: cs)
        else none
      | [] => none
    else if 224 ≤ b && b ≤ 239 then
      match rest with
      | c1 :: c2 :: rest2 =>
        let cp := (b - 224) * 4096 + (c1 - 128) * 64 + (c2 - 128)
        if isCont c1 && isCont c2 && decide (2048 ≤ cp) &&
            !(decide (55296 ≤ cp) && decide (cp ≤ 57343)) then
          (utf8Decode rest2).map (fun cs => Char.ofNat cp :: cs)
        else none
      | _ => none
    else if 240 ≤ b && b ≤ 244 then
      match rest with
      | c1 :: c2 :: c3 :: rest2 =>
        let cp := (b - 240) * 262144 + (c1 - 128) * 4096 + (c2 - 128) * 64 + (c3 - 128)
        if isCont c1 && isCont c2 && isCont c3 && decide (65536 ≤ cp) && decide (cp ≤ 1114111) then
          (utf8Decode rest2).map (fun cs => Char.ofNat cp :: cs)
        else none
      | _ => none
    else none

/-- Body of the try block of check_auth_header, with each Python exception
site modeled as an error: the two-name unpacking of split, the base64
decoder, and the UTF-8 decoder can raise; a wrong scheme and a credential
mismatch return False normally. -/
def authBody (auth : String) (hdr : String) : Except String Bool :=
  match splitWs1 hdr with
  | none => Except.error "ValueError"
  | some (typ, creds) =>
    if toLowerStr typ != "basic" then Except.ok false
    else
      match b64decodeStr creds with
      | none => Except.error "binascii.Error"
      | some bs =>
        match utf8Decode bs with
        | none => Except.error "UnicodeDecodeError"
        | some ds => Except.ok (String.mk ds == auth)

/-- Model of check_auth_header: a missing or empty header is rejected
before the try block; inside it, any exception is caught and becomes
rejection. -/
def check_auth_header (auth : String) (hdr : Option String) : Bool :=
  match hdr with
  | none => false
  | some s =>
    if s = "" then false
    else
      match authBody auth s with
      | Except.ok b => b
      | Except.error _ => false

structure Redirect where
  location : String
deriving DecidableEq

/-- HTTP responses the modeled handlers produce. -/
inductive HResp where
  | ok (body : String)
  | fileResp (bytes : List Nat)
  | lsJson (r : LsResult)
  | searchJson (es : List Entry)
  | redirect (location : String)
  | notFound
  | unauthorized (challenge : String)
deriving DecidableEq

/-- The challenge value of the 401 response of requires_auth. -/
def basicChallenge : String := "Basic realm=\"Dropper\""

/-- Model of the requires_auth decorator around one handler result: pass
the request through when AUTH is None or the header validates, else answer
401 with the WWW-Authenticate challenge naming realm Dropper. -/
def requires_auth (auth : Option String) (hdr : Option String) (h : HResp) : HResp :=
  match auth with
  | none => h
  | some a => if check_auth_header a hdr then h else HResp.unauthorized basicChallenge

/-! ### Download routes (dropper.py lines 402-418, 440-445) -/

/-- Model of the dl handler: confine the path, require an existing regular
file, and serve its bytes as an attachment. -/
def dl (root : List String) (fs : FsNode) (relpath : String) : HResp :=
  match safe_resolve root relpath with
  | none => HResp.notFound
  | some t =>
    match lookupNode (t.drop root.length) fs with
    | some (FsNode.file content _) => HResp.fileResp content
    | _ => HResp.notFound

/-- Model of the drop handler: unknown short names answer 404, known ones
delegate to dl on the mapped relative path. -/
def drop (root : List String) (fs : FsNode) (table : List (String × String)) (filename : String) : HResp :=
  match lookupS table filename with
  | none => HResp.notFound
  | some rel => dl root fs rel

/-! ### Route layer -/

inductive Route where
  | indexR
  | lsR (pathArg : Option String)
  | searchR (qArg : Option String)
  | dlR (relpath : String)
  | downloadR (relpath : String)
  | dropR (filename : String)
  | pingR
deriving DecidableEq

/-- Body of the browsing page; the HTML template and its rendering are an
external collaborator outside the modeled core (spec section 1). -/
def indexHtml : String := "Dropper UI"

/-- Ungated handler of each route. -/
def routeHandler (root : List String) (fs : FsNode) (table : List (String × String)) : Route → HResp
  | Route.indexR => HResp.ok indexHtml
  | Route.lsR pathArg =>
    let rel0 := pathArg.getD "."
    let rel := if rel0 = "." then "" else rel0
    match list_dir root fs rel with
    | some r => HResp.lsJson r
    | none => HResp.notFound
  | Route.searchR qArg => HResp.searchJson (api_search (build_index fs) (qArg.getD ""))
  | Route.dlR rel => dl root fs rel
  | Route.downloadR rel => HResp.redirect ("/dl/" ++ rel)
  | Route.dropR nm => drop root fs table nm
  | Route.pingR => HResp.ok "ok"

/-- The application: every route except the health check passes through
requires_auth; the ping route is registered without the decorator. -/
def app (root : List String) (fs : FsNode) (table : List (String × String))
    (auth : Option String) (r : Route) (hdr : Option String) : HResp :=
  match r with
  | Route.pingR => routeHandler root fs table Route.pingR
  | r => requires_auth auth hdr (routeHandler root fs table r)

/-! ### Startup (dropper.py lines 77-90, 457-466) -/

inductive StartOutcome where
  | exit (code : Nat) (msg : String)
  | serve (auth : Option String)
deriving DecidableEq

/-- AUTH as computed at startup: None under --no-auth, else the DROP_AUTH
environment value (which may be absent). -/
def envAuth (noAuth : Bool) (env : Option String) : Option String :=
  if noAuth then none else env

/-- The guidance printed when guarded mode lacks a credential. -/
def authErrMsg : String :=
  "\nERROR: DROP_AUTH environment variable is not set.\n" ++
  "Please set a username and password to secure the server. Format: user:pass\n" ++
  "\nExample:\n" ++
  "  On Linux/macOS terminal:\n" ++
  "    export DROP_AUTH=\"admin:mypassword\"\n" ++
  "  On Windows CMD:\n" ++
  "    set DROP_AUTH=admin:mypassword\n" ++
  "  On Windows PowerShell:\n" ++
  "    $env:DROP_AUTH=\"admin:mypassword\"\n\n" ++
  "If you want to run the server without authentication, use the --no-auth flag.\n"

/-- Model of the startup credential check, which runs before app.run binds
a socket: in guarded mode a missing or falsy (empty) credential prints the
guidance and exits with status 1; otherwise the server starts serving with
the computed AUTH value. -/
def startupCheck (noAuth : Bool) (env : Option String) : StartOutcome :=
  let auth := envAuth noAuth env
  if ¬noAuth ∧ (auth = none ∨ auth = some "") then StartOutcome.exit 1 authErrMsg
  else StartOutcome.serve auth

/-! ### Theorems -/

/-- C1: resolving a user-supplied relative path against Root and checking
ancestry on the resolved path either yields Root or a descendant of Root,
or signals not-found; in particular resolution fails with not-found for a
bare double dot, for a traversal such as ../../etc/passwd, for absolute
paths, and for a sibling directory whose name merely has Root as a string
prefix; and the failure produces the very same 404 response as a genuinely
absent file, so the two are not distinguishable. -/
theorem safe_resolve_confines :
    (∀ root rel t, safe_resolve root rel = some t → startsWithComps root t = true) ∧
    (∀ root rel, startsWithComps root (resolveTarget root rel) = false →
      safe_resolve root rel = none) ∧
    safe_resolve ["home", "user", "share"] ".." = none ∧
    safe_resolve ["home", "user", "share"] "../../etc/passwd" = none ∧
    safe_resolve ["home", "user", "share"] "/etc/passwd" = none ∧
    safe_resolve ["home", "Root"] "../Root2" = none ∧
    dl ["home", "Root"] (FsNode.dir "m" [("a.txt", FsNode.file [104] "m")]) "../Root2/a.txt" =
      dl ["home", "Root"] (FsNode.dir "m" [("a.txt", FsNode.file [104] "m")]) "missing.txt" ∧
    dl ["home", "Root"] (FsNode.dir "m" [("a.txt", FsNode.file [104] "m")]) "../Root2/a.txt" =
      HResp.notFound := by
  refine ⟨?_, ?_, by decide, by decide, by decide, by decide, by decide, by decide⟩
  · intro root rel t h
    simp only [safe_resolve] at h
    split at h
    · next hs => injection h with h2; exact h2 ▸ hs
    · exact Option.noConfusion h
  · intro root rel hs
    simp [safe_resolve, hs]

/-- Closed instance of safe_resolve_confines: a path that resolves inside
Root passes the ancestry check. -/
theorem safe_resolve_confines_witness :
    startsWithComps ["home", "Root"] ["home", "Root", "sub"] = true :=
  safe_resolve_confines.1 ["home", "Root"] "sub" ["home", "Root", "sub"] (by rfl)

/-- C5: for a short name present in the table, the drop handler produces
exactly the response of the dl handler on the mapped root-relative path;
for a short name absent from the table it answers 404. -/
theorem drop_refines_dl :
    ∀ root fs table filename,
      (lookupS table filename = none → drop root fs table filename = HResp.notFound) ∧
      (∀ rel, lookupS table filename = some rel →
        drop root fs table filename = dl root fs rel) := by
  intro root fs table filename
  constructor
  · intro h; simp [drop, h]
  · intro rel h; simp [drop, h]

/-- Closed instance of drop_refines_dl on a two-level tree: the short name
b.txt serves the same response, down to the bytes, as /dl/sub/b.txt. -/
theorem drop_refines_dl_witness :
    drop ["r"] (FsNode.dir "m0" [("sub", FsNode.dir "m1" [("b.txt", FsNode.file [98] "m2")])])
        [("b.txt", "sub/b.txt")] "b.txt" =
      dl ["r"] (FsNode.dir "m0" [("sub", FsNode.dir "m1" [("b.txt", FsNode.file [98] "m2")])])
        "sub/b.txt" :=
  (drop_refines_dl ["r"]
    (FsNode.dir "m0" [("sub", FsNode.dir "m1" [("b.txt", FsNode.file [98] "m2")])])
    [("b.txt", "sub/b.txt")] "b.txt").2 "sub/b.txt" (by rfl)

/-- C8: the health check bypasses the authentication gate unconditionally:
whatever the configuration and whatever the Authorization header, the ping
route answers 200 with body ok. -/
theorem ping_bypasses_auth :
    ∀ root fs table auth hdr, app root fs table auth Route.pingR hdr = HResp.ok "ok" := by
  intro root fs table auth hdr
  rfl

set_option maxRecDepth 8000 in
/-- C9: guarded mode without a configured credential (the variable absent,
or present but empty, which Python truthiness treats as unset) makes the
process print remediation guidance naming DROP_AUTH and the --no-auth flag
and exit with status 1 before ever reaching the serving state. -/
theorem startup_requires_credential :
    (∀ env, env = none ∨ env = some "" →
      startupCheck false env = StartOutcome.exit 1 authErrMsg ∧
      ∀ a, startupCheck false env ≠ StartOutcome.serve a) ∧
    strOccursIn "DROP_AUTH" authErrMsg = true ∧
    strOccursIn "--no-auth" authErrMsg = true := by
  refine ⟨?_, by decide, by decide⟩
  intro env h
  have hx : startupCheck false env = StartOutcome.exit 1 authErrMsg := by
    rcases h with h | h <;> subst h <;> rfl
  exact ⟨hx, fun a hserve => by rw [hx] at hserve; exact StartOutcome.noConfusion hserve⟩

/-- Closed instance of startup_requires_credential: with DROP_AUTH absent
and auth not disabled, startup exits with status 1 and the guidance. -/
theorem startup_requires_credential_witness :
    startupCheck false none = StartOutcome.exit 1 authErrMsg :=
  (startup_requires_credential.1 none (Or.inl rfl)).1

/-- C7: the size formatter maps 0 to 0.0B and 1536 to 1.5KB; in general it
scales by successive division by 1024 through the units (shown here for the
B and KB ranges), and every value of at least 1024 to the fifth falls back
to the PB-scaled value with one decimal place. -/
theorem human_size_spec :
    human_size 0 = "0.0B" ∧
    human_size 1536 = "1.5KB" ∧
    (∀ q : ℚ, q < 1024 → human_size q = fmt1 q ++ "B") ∧
    (∀ q : ℚ, 1024 ≤ q → q < 1024 ^ 2 → human_size q = fmt1 (q / 1024) ++ "KB") ∧
    (∀ q : ℚ, (1024 : ℚ) ^ 5 ≤ q → human_size q = fmt1 (q / 1024 ^ 5) ++ "PB") := by
  have h1024 : (0 : ℚ) < 1024 := by norm_num
  refine ⟨by norm_num [human_size, humanLoop, fmt1]; rfl,
    by norm_num [human_size, humanLoop, fmt1]; rfl, ?_, ?_, ?_⟩
  · intro q hq
    simp [human_size, humanLoop, hq]
  · intro q hq1 hq2
    have hn1 : ¬q < 1024 := not_lt.mpr hq1
    have hd : q / 1024 < 1024 := by
      rw [div_lt_iff h1024]
      nlinarith [hq2]
    simp [human_size, humanLoop, hn1, hd]
  · intro q hq
    have hn1 : ¬q < 1024 := not_lt.mpr (le_trans (by norm_num) hq)
    have hn2 : ¬q / 1024 < 1024 := by
      rw [not_lt, le_div_iff h1024]
      nlinarith [hq]
    have hn3 : ¬q / 1024 / 1024 < 1024 := by
      rw [not_lt, div_div, le_div_iff (by norm_num : (0:ℚ) < 1024 * 1024)]
      nlinarith [hq]
    have hn4 : ¬q / 1024 / 1024 / 1024 < 1024 := by
      rw [not_lt, div_div, div_div, le_div_iff (by norm_num : (0:ℚ) < 1024 * (1024 * 1024))]
      nlinarith [hq]
    have hn5 : ¬q / 1024 / 1024 / 1024 / 1024 < 1024 := by
      rw [not_lt, div_div, div_div, div_div,
        le_div_iff (by norm_num : (0:ℚ) < 1024 * (1024 * (1024 * 1024)))]
      nlinarith [hq]
    have harg : q / 1024 / 1024 / 1024 / 1024 / 1024 = q / 1024 ^ 5 := by
      rw [div_div, div_div, div_div, div_div]
      norm_num
    simp only [human_size, humanLoop, if_neg hn1, if_neg hn2, if_neg hn3, if_neg hn4, if_neg hn5]
    rw [harg]

/-- Closed instance of human_size_spec: the smallest PB-range value formats
as the PB scaling of itself. -/
theorem human_size_spec_witness :
    human_size ((1024 : ℚ) ^ 5) = fmt1 (((1024 : ℚ) ^ 5) / 1024 ^ 5) ++ "PB" :=
  human_size_spec.2.2.2.2 ((1024 : ℚ) ^ 5) (le_refl _)

/-- Characterization of the try block of check_auth_header: it yields a
normal True exactly when the header splits into a scheme and a credential
portion, the scheme lower-cases to basic, the credential portion decodes
as base64, the bytes decode as UTF-8, and the decoded string equals the
configured credential. -/
theorem authBody_ok_true_iff (a s : String) :
    authBody a s = Except.ok true ↔
    ∃ typ creds bs ds, splitWs1 s = some (typ, creds) ∧ toLowerStr typ = "basic" ∧
      b64decodeStr creds = some bs ∧ utf8Decode bs = some ds ∧ String.mk ds = a := by
  unfold authBody
  cases hsp : splitWs1 s with
  | none => simp
  | some tc =>
    obtain ⟨typ, creds⟩ := tc
    by_cases hty : toLowerStr typ = "basic"
    · simp only [hty, bne_self_eq_false, Bool.false_eq_true, if_false]
      cases hb : b64decodeStr creds with
      | none => simp [hb]
      | some bs =>
        cases hu : utf8Decode bs with
        | none => simp [hb, hu, hty]
        | some ds =>
          simp only [hb, hu, hty, Except.ok.injEq, beq_iff_eq, Option.some.injEq, Prod.mk.injEq]
          constructor
          · intro hd
            exact ⟨typ, creds, bs, ds, ⟨rfl, rfl⟩, hty, hb, hu, hd⟩
          · intro hr
            obtain ⟨t1, c1, bsx, dsx, hpair, hty1, hb1, hu1, hd⟩ := hr
            obtain ⟨he1, he2⟩ := hpair
            subst he1
            subst he2
            rw [hb] at hb1
            injection hb1 with e1
            subst e1
            rw [hu] at hu1
            injection hu1 with e2
            subst e2
            exact hd
    · have hbne : (toLowerStr typ != "basic") = true := bne_iff_ne.mpr hty
      simp [hbne, hty]

/-- C2: with authentication disabled every request passes the gate
untouched; in guarded mode the header check succeeds exactly when the
Authorization header is present and splits into a scheme token and a
credential portion, the scheme equals Basic case-insensitively, the
credential portion decodes under the standard-alphabet base64 decoder, the
bytes decode as UTF-8, and the result equals the configured credential;
and every failing request receives the one 401 response carrying the
WWW-Authenticate challenge naming realm Dropper. -/
theorem auth_gate_spec :
    ∀ (a : String) (hdr : Option String) (h : HResp),
      requires_auth none hdr h = h ∧
      (check_auth_header a hdr = true ↔
        ∃ s typ creds bs ds,
          hdr = some s ∧ splitWs1 s = some (typ, creds) ∧ toLowerStr typ = "basic" ∧
          b64decodeStr creds = some bs ∧ utf8Decode bs = some ds ∧ String.mk ds = a) ∧
      (check_auth_header a hdr = false →
        requires_auth (some a) hdr h = HResp.unauthorized basicChallenge) ∧
      (check_auth_header a hdr = true → requires_auth (some a) hdr h = h) := by
  intro a hdr h
  refine ⟨rfl, ?_, ?_, ?_⟩
  · constructor
    · intro ht
      cases hdr with
      | none => exact absurd ht (by simp [check_auth_header])
      | some s =>
        by_cases hs : s = ""
        · subst hs; exact absurd ht (by simp [check_auth_header])
        · simp only [check_auth_header, if_neg hs] at ht
          cases hab : authBody a s with
          | error e => rw [hab] at ht; exact absurd ht (by simp)
          | ok b =>
            rw [hab] at ht; subst ht
            obtain ⟨typ, creds, bs, ds, h1, h2, h3, h4, h5⟩ := (authBody_ok_true_iff a s).mp hab
            exact ⟨s, typ, creds, bs, ds, rfl, h1, h2, h3, h4, h5⟩
    · rintro ⟨s, typ, creds, bs, ds, rfl, h1, h2, h3, h4, h5⟩
      have hab : authBody a s = Except.ok true :=
        (authBody_ok_true_iff a s).mpr ⟨typ, creds, bs, ds, h1, h2, h3, h4, h5⟩
      have hs : s ≠ "" := by
        intro he
        subst he
        rw [show splitWs1 "" = none from rfl] at h1
        exact Option.noConfusion h1
      simp [check_auth_header, hs, hab]
  · intro hfalse
    simp [requires_auth, hfalse]
  · intro htrue
    simp [requires_auth, htrue]

/-- Closed instance of auth_gate_spec: the canonical admin credential is
accepted, and a Bearer header receives the realm-Dropper challenge. -/
theorem auth_gate_spec_witness :
    check_auth_header "admin:admin" (some "Basic YWRtaW46YWRtaW4=") = true ∧
    requires_auth (some "admin:admin") (some "Bearer t0ken") (HResp.ok "p") =
      HResp.unauthorized basicChallenge := by
  constructor
  · exact (auth_gate_spec "admin:admin" (some "Basic YWRtaW46YWRtaW4=") (HResp.ok "p")).2.1.mpr
      ⟨"Basic YWRtaW46YWRtaW4=", "Basic", "YWRtaW46YWRtaW4=",
        [97, 100, 109, 105, 110, 58, 97, 100, 109, 105, 110],
        ['a', 'd', 'm', 'i', 'n', ':', 'a', 'd', 'm', 'i', 'n'],
        rfl, by rfl, by rfl, by rfl, by rfl, by rfl⟩
  · exact (auth_gate_spec "admin:admin" (some "Bearer t0ken") (HResp.ok "p")).2.2.1 (by rfl)

/-- C10: the header check is total and never escapes an exception: it is
Boolean-valued on every input, a missing or empty header is rejected, every
exception raised inside the try block (failed unpacking, malformed base64,
non-UTF-8 bytes) is caught and becomes rejection, a normally returned value
passes through (so a wrong scheme or a mismatched credential also rejects),
and in particular a header with no whitespace-separated credential portion
and a non-Basic scheme each yield False. -/
theorem check_auth_total :
    ∀ (a : String) (hdr : Option String),
      (check_auth_header a hdr = true ∨ check_auth_header a hdr = false) ∧
      (hdr = none → check_auth_header a hdr = false) ∧
      (hdr = some "" → check_auth_header a hdr = false) ∧
      (∀ s e, hdr = some s → authBody a s = Except.error e →
        check_auth_header a hdr = false) ∧
      (∀ s b, hdr = some s → s ≠ "" → authBody a s = Except.ok b →
        check_auth_header a hdr = b) ∧
      (∀ s typ creds, hdr = some s → splitWs1 s = some (typ, creds) →
        toLowerStr typ ≠ "basic" → check_auth_header a hdr = false) ∧
      (∀ s, hdr = some s → splitWs1 s = none → check_auth_header a hdr = false) := by
  intro a hdr
  refine ⟨?_, ?_, ?_, ?_, ?_, ?_, ?_⟩
  · cases hb : check_auth_header a hdr
    · exact Or.inr rfl
    · exact Or.inl rfl
  · intro h; subst h; rfl
  · intro h; subst h; rfl
  · intro s e h herr
    subst h
    by_cases hs : s = ""
    · subst hs; rfl
    · simp [check_auth_header, hs, herr]
  · intro s b h hs hab
    subst h
    simp [check_auth_header, hs, hab]
  · intro s typ creds h hsp hty
    subst h
    have hbne : (toLowerStr typ != "basic") = true := bne_iff_ne.mpr hty
    have hab : authBody a s = Except.ok false := by
      simp [authBody, hsp, hbne]
    by_cases hs : s = ""
    · subst hs; rfl
    · simp [check_auth_header, hs, hab]
  · intro s h hsp
    subst h
    have hab : authBody a s = Except.error "ValueError" := by
      simp [authBody, hsp]
    by_cases hs : s = ""
    · subst hs; rfl
    · simp [check_auth_header, hs, hab]

/-- Closed instances of check_auth_total: an absent header, a header whose
credential portion is malformed base64 (raising inside the try block), and
a header with a single token (failing the two-name unpacking) all come back
False rather than raising. -/
theorem check_auth_total_witness :
    check_auth_header "admin:admin" none = false ∧
    check_auth_header "admin:admin" (some "Basic a") = false ∧
    check_auth_header "admin:admin" (some "onlyonetoken") = false := by
  refine ⟨?_, ?_, ?_⟩
  · exact (check_auth_total "admin:admin" none).2.1 rfl
  · exact (check_auth_total "admin:admin" (some "Basic a")).2.2.2.1 "Basic a"
      "binascii.Error" rfl (by rfl)
  · exact (check_auth_total "admin:admin" (some "onlyonetoken")).2.2.2.2.2.2 "onlyonetoken"
      rfl (by rfl)

/-- Helper: a string whose character list is empty is the empty string. -/
theorem strEmptyOfDataNil : ∀ s : String, s.data = [] → s = ""
  | ⟨[]⟩, _ => rfl
  | ⟨_ :: _⟩, h => absurd h (by simp)

/-- C4 counterexample: the claim that the result set is exactly the entries
matching the lower-cased query fails for a query carrying surrounding
whitespace, because the handler strips the query before matching: for the
query consisting of the letter a plus a trailing space, the entry named ab
is returned although it does not contain that two-character needle. -/
theorem api_search_claim_counterexample :
    api_search [⟨"ab", "ab", "2.0B", "t"⟩] "a " ≠
      searchByClaim [⟨"ab", "ab", "2.0B", "t"⟩] "a " := by
  decide

/-- C4 amended: the handler first strips surrounding whitespace from the
query, and then returns exactly the index entries whose lower-cased name or
relative path contains the lower-cased stripped query; a query that is
empty, or becomes empty after stripping, yields the empty array and never
the full index. -/
theorem api_search_matches_stripped :
    (∀ idx q, api_search idx q = searchByClaim idx (pyStrip q)) ∧
    (∀ idx, api_search idx "" = []) := by
  constructor
  · intro idx q
    by_cases h : toLowerStr (pyStrip q) = ""
    · have hd : ((pyStrip q).data.map Char.toLower) = [] := congrArg String.data h
      have h2 : pyStrip q = "" := strEmptyOfDataNil _ (List.map_eq_nil.mp hd)
      have hA : api_search idx q = [] := by
        unfold api_search
        rw [h2]
        rfl
      have hB : searchByClaim idx (pyStrip q) = [] := by
        rw [h2]
        rfl
      rw [hA, hB]
    · have h3 : pyStrip q ≠ "" := by
        intro he
        exact h (by rw [he]; rfl)
      simp [api_search, searchByClaim, h, h3]
  · intro idx
    rfl

/-- Helper: the Boolean key test agrees with membership in the key list. -/
theorem hasKey_iff_mem (t : List (String × String)) (k : String) :
    hasKey t k = true ↔ k ∈ t.map Prod.fst := by
  unfold hasKey
  rw [List.any_eq_true]
  constructor
  · rintro ⟨p, hp, he⟩
    exact List.mem_map.mpr ⟨p, hp, (beq_iff_eq.mp he)⟩
  · intro hm
    obtain ⟨p, hp, he⟩ := List.mem_map.mp hm
    exact ⟨p, hp, beq_iff_eq.mpr he⟩

/-- Helper: dict assignment either keeps the key list (overwrite) or
appends the new key. -/
theorem keys_dictInsert (t : List (String × String)) (k v : String) :
    (dictInsert t k v).map Prod.fst =
      if hasKey t k then t.map Prod.fst else t.map Prod.fst ++ [k] := by
  induction t with
  | nil => rfl
  | cons p t ih =>
    obtain ⟨k0, v0⟩ := p
    by_cases he : k0 = k
    · subst he
      simp [dictInsert, hasKey]
    · have hne : (k0 == k) = false := beq_eq_false_iff_ne.mpr he
      simp only [dictInsert, if_neg he, List.map_cons, hasKey, List.any_cons, hne,
        Bool.false_or]
      rw [show (t.any fun p => p.1 == k) = hasKey t k from rfl, ih]
      by_cases hk : hasKey t k
      · simp [hk]
      · simp [hk]

/-- Helper: dict assignment preserves distinctness of the keys. -/
theorem nodup_keys_dictInsert (t : List (String × String)) (k v : String)
    (h : (t.map Prod.fst).Nodup) : ((dictInsert t k v).map Prod.fst).Nodup := by
  rw [keys_dictInsert]
  by_cases hk : hasKey t k
  · simp [hk, h]
  · simp only [hk, if_false, Bool.false_eq_true]
    rw [List.nodup_append]
    refine ⟨h, List.nodup_singleton k, ?_⟩
    intro x hx hxk
    rw [List.mem_singleton] at hxk
    subst hxk
    exact hk ((hasKey_iff_mem t x).mpr hx)

/-- Helper: the per-directory fold of the SHORT_URLS loop preserves key
distinctness. -/
theorem nodup_keys_foldl_files (rr : String) (files : List String) :
    ∀ t, (t.map Prod.fst).Nodup →
      ((files.foldl (fun t2 f => insertFile t2 rr f) t).map Prod.fst).Nodup := by
  induction files with
  | nil => intro t h; exact h
  | cons f fs ih =>
    intro t h
    exact ih _ (nodup_keys_dictInsert t (chooseShort t f) (mkRel rr f) h)

/-- C3 helper: characterization of the while loop searching for a free
suffix: starting at index i0 with enough fuel, it stops at the first free
candidate. -/
theorem freeSearch_min (t : List (String × String)) (b e : String) :
    ∀ fuel i0 i, i0 ≤ i → i - i0 < fuel →
      hasKey t (candName b e i) = false →
      (∀ j, i0 ≤ j → j < i → hasKey t (candName b e j) = true) →
      freeSearch t b e i0 fuel = candName b e i := by
  intro fuel
  induction fuel with
  | zero =>
    intro i0 i _ h2 _ _
    omega
  | succ fuel ih =>
    intro i0 i hle hfuel hfree hall
    by_cases h0 : hasKey t (candName b e i0) = true
    · have hne : i0 ≠ i := by
        intro he
        rw [he, hfree] at h0
        exact Bool.noConfusion h0
      have hlt : i0 < i := lt_of_le_of_ne hle hne
      rw [show freeSearch t b e i0 (fuel + 1) = freeSearch t b e (i0 + 1) fuel by
        simp [freeSearch, h0]]
      exact ih (i0 + 1) i hlt (by omega) hfree
        (fun j hj1 hj2 => hall j (by omega) hj2)
    · have hi : i = i0 := by
        by_contra hne
        have hlt : i0 < i := lt_of_le_of_ne hle (fun he => hne he.symm)
        exact h0 (hall i0 (le_refl i0) hlt)
      subst hi
      rw [Bool.not_eq_true] at h0
      simp [freeSearch, h0]

/-- C3: the short-name table assigns each file its bare filename when that
name is unused; on a collision it inserts the first free numeric suffix
(trying 1, 2, and so on) between the stem and the extension; the keys of
the built table are pairwise distinct, so each short name maps to exactly
one root-relative path; and on the canonical two-file collision the first
file keeps the bare name while the second receives the suffix 1. -/
theorem short_urls_spec :
    (∀ walk, ((buildShortUrls walk).map Prod.fst).Nodup) ∧
    (∀ t f, hasKey t f = false → chooseShort t f = f) ∧
    (∀ t f i, hasKey t f = true → 1 ≤ i → i ≤ t.length + 1 →
      hasKey t (candName (splitext f).1 (splitext f).2 i) = false →
      (∀ j, 1 ≤ j → j < i → hasKey t (candName (splitext f).1 (splitext f).2 j) = true) →
      chooseShort t f = candName (splitext f).1 (splitext f).2 i) ∧
    buildShortUrls [(".", ["a.txt"]), ("sub", ["a.txt"])] =
      [("a.txt", "a.txt"), ("a_1.txt", "sub/a.txt")] ∧
    (∀ t rr f, insertFile t rr f = dictInsert t (chooseShort t f) (mkRel rr f)) := by
  refine ⟨?_, ?_, ?_, by decide, fun t rr f => rfl⟩
  · intro walk
    suffices hgen : ∀ t : List (String × String), (t.map Prod.fst).Nodup →
        ((walk.foldl
          (fun (t2 : List (String × String)) (p : String × List String) =>
            p.2.foldl (fun t3 f => insertFile t3 p.1 f) t2) t).map
          Prod.fst).Nodup by
      exact hgen [] List.nodup_nil
    induction walk with
    | nil => intro t h; exact h
    | cons p ps ih =>
      intro t h
      exact ih _ (nodup_keys_foldl_files p.1 p.2 t h)
  · intro t f h
    simp [chooseShort, h]
  · intro t f i hkey h1 h2 hfree hall
    rw [show chooseShort t f = freeSearch t (splitext f).1 (splitext f).2 1 (t.length + 1) by
      simp [chooseShort, hkey]]
    exact freeSearch_min t (splitext f).1 (splitext f).2 (t.length + 1) 1 i h1 (by omega)
      hfree hall

/-- Closed instance of short_urls_spec: against a table already holding the
bare name, the chosen short name carries the suffix 1 before the
extension. -/
theorem short_urls_spec_witness :
    chooseShort [("a.txt", "a.txt")] "a.txt" = "a_1.txt" := by
  have h := short_urls_spec.2.2.1 [("a.txt", "a.txt")] "a.txt" 1 (by decide) (le_refl 1)
    (by decide) (by decide) (fun j hj1 hj2 => absurd (lt_of_le_of_lt hj1 hj2) (by omega))
  exact h.trans (by decide)

/-- Helper: mapping an entry back to its source name makes the projected
name list of a filterMap a sublist of the child-name list. -/
theorem map_name_filterMap_sublist {β : Type} (f : String × FsNode → Option β)
    (nm : β → String) (hf : ∀ a b, f a = some b → nm b = a.1) :
    ∀ l : List (String × FsNode), ((l.filterMap f).map nm).Sublist (l.map Prod.fst) := by
  intro l
  induction l with
  | nil => simp
  | cons a t ih =>
    cases hfa : f a with
    | none =>
      simp only [List.filterMap_cons, hfa, List.map_cons]
      exact ih.cons a.1
    | some b =>
      simp only [List.filterMap_cons, hfa, List.map_cons, hf a b hfa]
      exact ih.cons₂ a.1

/-- Helper: the child names come out of the sort in nondecreasing order. -/
theorem sorted_map_fst_sortChildren (cs : List (String × FsNode)) :
    ((sortChildren cs).map Prod.fst).Sorted (· ≤ ·) :=
  List.pairwise_map.mpr (List.sorted_insertionSort childLe cs)

/-- Helper: filtered projections of the sorted children stay sorted by
name. -/
theorem sorted_names_filterMap {β : Type} (f : String × FsNode → Option β)
    (nm : β → String) (hf : ∀ a b, f a = some b → nm b = a.1)
    (cs : List (String × FsNode)) :
    (((sortChildren cs).filterMap f).map nm).Sorted (· ≤ ·) :=
  List.Pairwise.sublist (map_name_filterMap_sublist f nm hf (sortChildren cs))
    (sorted_map_fst_sortChildren cs)

/-- C6: on a confined path naming an existing directory, the listing holds
exactly the immediate children, sorted by name, each classified as a
directory entry (name, joined relative path, time, no size field) or a file
entry (additionally carrying the human-readable size of its byte length),
with the relative path always the forward-slash join of the request path
and the child name, and the reported working directory the posix form of
the request path; on a path that fails confinement, names nothing, or
names a file, the listing signals not-found. -/
theorem list_dir_spec :
    ∀ (root : List String) (fs : FsNode) (rel : String),
      (safe_resolve root rel = none → list_dir root fs rel = none) ∧
      (∀ t, safe_resolve root rel = some t →
        (lookupNode (t.drop root.length) fs = none → list_dir root fs rel = none) ∧
        (∀ c mt, lookupNode (t.drop root.length) fs = some (FsNode.file c mt) →
          list_dir root fs rel = none) ∧
        (∀ mt cs, lookupNode (t.drop root.length) fs = some (FsNode.dir mt cs) →
          ∃ r, list_dir root fs rel = some r ∧
            (r.dirs.map DirEntry.name).Sorted (· ≤ ·) ∧
            (r.files.map FileEntry.name).Sorted (· ≤ ·) ∧
            (∀ e ∈ r.dirs, e.relpath = posixJoin rel e.name ∧
              ∃ mt2 cs2, (e.name, FsNode.dir mt2 cs2) ∈ cs) ∧
            (∀ e ∈ r.files, e.relpath = posixJoin rel e.name ∧
              ∃ c2 mt2, (e.name, FsNode.file c2 mt2) ∈ cs ∧
                e.size = human_size (c2.length : ℚ)) ∧
            (∀ nm mt2 cs2, (nm, FsNode.dir mt2 cs2) ∈ cs → nm ∈ r.dirs.map DirEntry.name) ∧
            (∀ nm c2 mt2, (nm, FsNode.file c2 mt2) ∈ cs → nm ∈ r.files.map FileEntry.name) ∧
            r.cwd = posixStr rel)) := by
  intro root fs rel
  constructor
  · intro h
    simp [list_dir, h]
  · intro t ht
    refine ⟨?_, ?_, ?_⟩
    · intro h
      simp [list_dir, ht, h]
    · intro c mt h
      simp [list_dir, ht, h]
    · intro mt cs h
      refine ⟨⟨(sortChildren cs).filterMap (dirEntryOf rel),
        (sortChildren cs).filterMap (fileEntryOf rel), posixStr rel⟩,
        by simp [list_dir, ht, h], ?_, ?_, ?_, ?_, ?_, ?_, rfl⟩
      · exact sorted_names_filterMap (dirEntryOf rel) DirEntry.name
          (by
            intro a b hab
            obtain ⟨nm, node⟩ := a
            cases node with
            | file c2 mt2 => exact absurd hab (by simp [dirEntryOf])
            | dir mt2 cs2 =>
              simp only [dirEntryOf, Option.some.injEq] at hab
              rw [← hab]) cs
      · exact sorted_names_filterMap (fileEntryOf rel) FileEntry.name
          (by
            intro a b hab
            obtain ⟨nm, node⟩ := a
            cases node with
            | dir mt2 cs2 => exact absurd hab (by simp [fileEntryOf])
            | file c2 mt2 =>
              simp only [fileEntryOf, Option.some.injEq] at hab
              rw [← hab]) cs
      · intro e he
        obtain ⟨a, ha, hfa⟩ := List.mem_filterMap.mp he
        obtain ⟨nm, node⟩ := a
        cases node with
        | file c2 mt2 => exact absurd hfa (by simp [dirEntryOf])
        | dir mt2 cs2 =>
          simp only [dirEntryOf, Option.some.injEq] at hfa
          subst hfa
          exact ⟨rfl, mt2, cs2, (List.perm_insertionSort childLe cs).subset ha⟩
      · intro e he
        obtain ⟨a, ha, hfa⟩ := List.mem_filterMap.mp he
        obtain ⟨nm, node⟩ := a
        cases node with
        | dir mt2 cs2 => exact absurd hfa (by simp [fileEntryOf])
        | file c2 mt2 =>
          simp only [fileEntryOf, Option.some.injEq] at hfa
          subst hfa
          exact ⟨rfl, c2, mt2, (List.perm_insertionSort childLe cs).subset ha, rfl⟩
      · intro nm mt2 cs2 hmem
        refine List.mem_map.mpr ⟨⟨nm, posixJoin rel nm, mt2⟩, ?_, rfl⟩
        exact List.mem_filterMap.mpr
          ⟨(nm, FsNode.dir mt2 cs2), (List.perm_insertionSort childLe cs).symm.subset hmem, rfl⟩
      · intro nm c2 mt2 hmem
        refine List.mem_map.mpr ⟨⟨nm, posixJoin rel nm, human_size (c2.length : ℚ), mt2⟩, ?_, rfl⟩
        exact List.mem_filterMap.mpr
          ⟨(nm, FsNode.file c2 mt2), (List.perm_insertionSort childLe cs).symm.subset hmem, rfl⟩

/-- Closed instance of list_dir_spec on a concrete tree: listing the root
of a tree with one subdirectory and one file succeeds and the projected
name lists come out sorted. -/
theorem list_dir_spec_witness :
    ∃ r, list_dir ["r"]
        (FsNode.dir "m0" [("sub", FsNode.dir "m1" []), ("a.txt", FsNode.file [97, 97] "m3")])
        "" = some r ∧
      (r.dirs.map DirEntry.name).Sorted (· ≤ ·) := by
  have h := ((list_dir_spec ["r"]
    (FsNode.dir "m0" [("sub", FsNode.dir "m1" []), ("a.txt", FsNode.file [97, 97] "m3")])
    "").2 ["r"] (by rfl)).2.2 "m0"
    [("sub", FsNode.dir "m1" []), ("a.txt", FsNode.file [97, 97] "m3")] (by rfl)
  obtain ⟨r, hr, hsorted, _⟩ := h
  exact ⟨r, hr, hsorted⟩

end Dropper
